import Mathlib

/-!
Verification of the RectangleAnalyzer component (`RectangleAnalyzer.py`).

The analyzer stores a list of rectangle records, validates them at
construction time, and offers pure geometric queries: pairwise overlap
detection, coordinate-compression coverage area, overlap-region extraction,
point containment, max-overlap point search, and aggregate statistics.

Numeric values are modelled by ℚ (exact rational arithmetic as the
idealization of Python numbers).  For the validation layer, where Python's
`isinstance(v, (int, float))` admits the IEEE special values `inf`, `-inf`
and `nan`, values are modelled by `RawValue`, which represents those special
values explicitly together with their comparison behaviour against zero.
-/

/-- A Python value appearing in a rectangle record field: a finite number,
one of the IEEE special float values (which pass `isinstance(v, (int, float))`),
or a non-numeric value (e.g. a string). -/
inductive RawValue where
  | num (q : ℚ)
  | infVal
  | negInfVal
  | nanVal
  | notNum
deriving DecidableEq, Repr

namespace RawValue

/-- Python `isinstance(v, (int, float))`: the IEEE special values are
`float` instances and hence count as numeric. -/
def isNumeric : RawValue → Bool
  | notNum => false
  | _ => true

/-- Whether the value is a finite real number. -/
def isFinite : RawValue → Bool
  | num _ => true
  | _ => false

/-- Python `v < 0` for a numeric value (IEEE semantics: `inf < 0` and
`nan < 0` are false, `-inf < 0` is true). -/
def ltZero : RawValue → Bool
  | num q => decide (q < 0)
  | negInfVal => true
  | _ => false

/-- Python `v == 0` for a numeric value (IEEE semantics: no special value
equals zero). -/
def eqZero : RawValue → Bool
  | num q => decide (q = 0)
  | _ => false

end RawValue

/-- A raw rectangle record as passed to the constructor: each of the four
required keys is either absent (`none`) or bound to a value. -/
structure RawRect where
  x : Option RawValue
  y : Option RawValue
  width : Option RawValue
  height : Option RawValue
deriving DecidableEq, Repr

instance : Inhabited RawRect := ⟨⟨none, none, none, none⟩⟩

/-- Field access after the presence check; the default is never reached on
records that passed the missing-key test. -/
def getField (o : Option RawValue) : RawValue := o.getD .notNum

/-- Classification of the construction-time errors of §7:
missing key, non-numeric field, negative dimension, zero area. -/
inductive ErrKind where
  | missingField
  | nonNumericField
  | negativeDimension
  | zeroArea
deriving DecidableEq, Repr

/-- A classified construction error identifying the offending index. -/
structure ValidationError where
  index : ℕ
  kind : ErrKind
deriving DecidableEq, Repr

instance : Inhabited ValidationError := ⟨⟨0, .missingField⟩⟩

/-- The per-record body of `_validate_rectangles` (`RectangleAnalyzer.py`
lines 12–31): required-keys check, then numeric check on each field, then
negative-dimension check, then zero-area check; `none` means the record
passes. -/
def checkRecord (r : RawRect) : Option ErrKind :=
  if ¬ (r.x.isSome ∧ r.y.isSome ∧ r.width.isSome ∧ r.height.isSome) then
    some .missingField
  else if ¬ ((getField r.x).isNumeric ∧ (getField r.y).isNumeric ∧
      (getField r.width).isNumeric ∧ (getField r.height).isNumeric) then
    some .nonNumericField
  else if (getField r.width).ltZero ∨ (getField r.height).ltZero then
    some .negativeDimension
  else if (getField r.width).eqZero ∨ (getField r.height).eqZero then
    some .zeroArea
  else
    none

/-- The `for i, rect in enumerate(...)` loop of `_validate_rectangles`:
records are checked in order and the first offending record aborts
construction with its index and error class. -/
def validateFrom : ℕ → List RawRect → Except ValidationError Unit
  | _, [] => .ok ()
  | i, r :: rest =>
    match checkRecord r with
    | some k => .error ⟨i, k⟩
    | none => validateFrom (i + 1) rest

/-- `_validate_rectangles` (`RectangleAnalyzer.py` lines 10–31): validates
all records synchronously at construction.  (The trailing call to
`_check_identical_rectangles` only emits non-fatal warnings, modelled
separately by `check_identical_rectangles`.) -/
def validate_rectangles (rrs : List RawRect) : Except ValidationError Unit :=
  validateFrom 0 rrs

/-- A validated rectangle: the four numeric fields, as exact rationals. -/
structure Rect where
  x : ℚ
  y : ℚ
  width : ℚ
  height : ℚ
deriving DecidableEq, Repr

instance : Inhabited Rect := ⟨⟨0, 0, 0, 0⟩⟩

/-- The raw record carrying the four finite numeric fields of a rectangle. -/
def rawOf (r : Rect) : RawRect :=
  ⟨some (.num r.x), some (.num r.y), some (.num r.width), some (.num r.height)⟩

/-- The loop body state of `_check_identical_rectangles` (lines 36–51):
`seen` associates a geometry key `(x, y, width, height)` with the first
index carrying it; each later record with a seen key emits one warning
`(current index, first index)` and leaves `seen` unchanged. -/
def checkIdenticalFrom : ℕ → List (Rect × ℕ) → List Rect → List (ℕ × ℕ)
  | _, _, [] => []
  | i, seen, r :: rest =>
    match seen.lookup r with
    | some j => (i, j) :: checkIdenticalFrom (i + 1) seen rest
    | none => checkIdenticalFrom (i + 1) ((r, i) :: seen) rest

/-- `_check_identical_rectangles` (`RectangleAnalyzer.py` lines 36–51):
the list of duplicate-geometry warnings `(i, seen[key])` in emission
order. -/
def check_identical_rectangles (rs : List Rect) : List (ℕ × ℕ) :=
  checkIdenticalFrom 0 [] rs

/-- `_rectangles_overlap` (`RectangleAnalyzer.py` lines 66–74): strict
separating-axis test. -/
def rectangles_overlap (r1 r2 : Rect) : Bool :=
  if r1.x + r1.width ≤ r2.x ∨ r2.x + r2.width ≤ r1.x then false
  else if r1.y + r1.height ≤ r2.y ∨ r2.y + r2.height ≤ r1.y then false
  else true

/-- `find_overlaps` (`RectangleAnalyzer.py` lines 53–64): the nested loops
`for i in range(n): for j in range(i+1, n)` collecting the overlapping
index pairs in encounter order. -/
def find_overlaps (rs : List Rect) : List (ℕ × ℕ) :=
  (List.range rs.length).flatMap fun i =>
    (List.range' (i + 1) (rs.length - (i + 1))).filterMap fun j =>
      if rectangles_overlap (rs.getD i default) (rs.getD j default) then
        some (i, j)
      else
        none

/-- `_get_overlap_region` (`RectangleAnalyzer.py` lines 137–147). -/
def get_overlap_region (r1 r2 : Rect) : Option Rect :=
  if ¬ rectangles_overlap r1 r2 then none
  else
    let x := max r1.x r2.x
    let y := max r1.y r2.y
    let x_max := min (r1.x + r1.width) (r2.x + r2.width)
    let y_max := min (r1.y + r1.height) (r2.y + r2.height)
    some ⟨x, y, x_max - x, y_max - y⟩

/-- One entry of the `get_overlap_regions` result: the index pair and the
intersection rectangle. -/
structure OverlapRegion where
  rect_indices : ℕ × ℕ
  region : Rect
deriving DecidableEq, Repr

/-- `get_overlap_regions` (`RectangleAnalyzer.py` lines 120–135): same
nested index loops as `find_overlaps`, collecting the non-`None` overlap
regions with their index pairs. -/
def get_overlap_regions (rs : List Rect) : List OverlapRegion :=
  (List.range rs.length).flatMap fun i =>
    (List.range' (i + 1) (rs.length - (i + 1))).filterMap fun j =>
      (get_overlap_region (rs.getD i default) (rs.getD j default)).map fun region =>
        ⟨(i, j), region⟩

/-- Python `sorted(set(l))`: the distinct values in increasing order. -/
def sortedCoords (l : List ℚ) : List ℚ :=
  l.dedup.insertionSort (· ≤ ·)

/-- The sorted distinct x-edge coordinates (each rectangle contributes
`x` and `x + width`), as collected in lines 86–95 / 172–181. -/
def xCoords (rs : List Rect) : List ℚ :=
  sortedCoords (rs.map Rect.x ++ rs.map fun r => r.x + r.width)

/-- The sorted distinct y-edge coordinates (each rectangle contributes
`y` and `y + height`). -/
def yCoords (rs : List Rect) : List ℚ :=
  sortedCoords (rs.map Rect.y ++ rs.map fun r => r.y + r.height)

/-- Adjacent pairs `(l[i], l[i+1])` of a coordinate list, in order: the
grid intervals scanned by `for i in range(len(l) - 1)`. -/
def adjPairs (l : List ℚ) : List (ℚ × ℚ) := l.zip l.tail

/-- The cell-containment test of `calculate_coverage_area` (lines 108–114):
some rectangle fully contains the cell with corner `(cx, cy)` and size
`(cw, ch)`. -/
def cellCovered (rs : List Rect) (cx cy cw ch : ℚ) : Bool :=
  rs.any fun r =>
    decide (r.x ≤ cx ∧ cx + cw ≤ r.x + r.width ∧ r.y ≤ cy ∧ cy + ch ≤ r.y + r.height)

/-- `calculate_coverage_area` (`RectangleAnalyzer.py` lines 76–118):
coordinate-compression grid scan, adding each covered cell's area once. -/
def calculate_coverage_area (rs : List Rect) : ℚ :=
  if rs.isEmpty then 0 else
    ((adjPairs (xCoords rs)).map fun p =>
      ((adjPairs (yCoords rs)).map fun q =>
        if cellCovered rs p.1 q.1 (p.2 - p.1) (q.2 - q.1)
        then (p.2 - p.1) * (q.2 - q.1) else 0).sum).sum

/-- `is_point_covered` (`RectangleAnalyzer.py` lines 149–160):
boundary-inclusive containment in some rectangle. -/
def is_point_covered (rs : List Rect) (x y : ℚ) : Bool :=
  rs.any fun r =>
    decide (r.x ≤ x ∧ x ≤ r.x + r.width ∧ r.y ≤ y ∧ y ≤ r.y + r.height)

/-- The rectangle count at a sample point (lines 194–199): the number of
rectangles whose closed region contains `(px, py)`. -/
def pointCount (rs : List Rect) (px py : ℚ) : ℕ :=
  rs.countP fun r =>
    decide (r.x ≤ px ∧ px ≤ r.x + r.width ∧ r.y ≤ py ∧ py ≤ r.y + r.height)

/-- The cell centers of the compression grid in the scan order of the
nested loops of `find_max_overlap_point` (x-major, then y). -/
def gridCenters (rs : List Rect) : List (ℚ × ℚ) :=
  (adjPairs (xCoords rs)).flatMap fun p =>
    (adjPairs (yCoords rs)).map fun q => ((p.1 + p.2) / 2, (q.1 + q.2) / 2)

/-- The result record of `find_max_overlap_point`. -/
structure MaxPoint where
  x : ℚ
  y : ℚ
  count : ℕ
deriving DecidableEq, Repr

/-- The loop body of `find_max_overlap_point` (lines 188–203): the running
best point is replaced exactly when the current cell center's count
strictly exceeds the running maximum. -/
def stepMax (rs : List Rect) (mp : MaxPoint) (c : ℚ × ℚ) : MaxPoint :=
  let cnt := pointCount rs c.1 c.2
  if cnt > mp.count then ⟨c.1, c.2, cnt⟩ else mp

/-- `find_max_overlap_point` (`RectangleAnalyzer.py` lines 162–205): scans
all grid cell centers in x-major order, starting from `{x: 0, y: 0,
count: 0}`. -/
def find_max_overlap_point (rs : List Rect) : MaxPoint :=
  if rs.isEmpty then ⟨0, 0, 0⟩
  else (gridCenters rs).foldl (stepMax rs) ⟨0, 0, 0⟩

/-- The result record of `get_stats`. -/
structure Stats where
  total_rectangles : ℕ
  overlapping_pairs : ℕ
  total_area : ℚ
  overlap_area : ℚ
  coverage_efficiency : ℚ
deriving DecidableEq, Repr

/-- `get_stats` (`RectangleAnalyzer.py` lines 207–244). -/
def get_stats (rs : List Rect) : Stats :=
  let total_rectangles := rs.length
  let overlapping_pairs := (find_overlaps rs).length
  let total_area := calculate_coverage_area rs
  let overlap_area :=
    ((get_overlap_regions rs).map fun o => o.region.width * o.region.height).sum
  let sum_of_individual_areas := (rs.map fun r => r.width * r.height).sum
  let coverage_efficiency :=
    if sum_of_individual_areas > 0 then total_area / sum_of_individual_areas else 0
  ⟨total_rectangles, overlapping_pairs, total_area, overlap_area, coverage_efficiency⟩

/-! ### Basic characterizations and list-sum helpers -/

lemma rectangles_overlap_iff (a b : Rect) :
    rectangles_overlap a b = true ↔
      ¬(a.x + a.width ≤ b.x ∨ b.x + b.width ≤ a.x) ∧
      ¬(a.y + a.height ≤ b.y ∨ b.y + b.height ≤ a.y) := by
  unfold rectangles_overlap
  split_ifs with h1 h2 <;> simp_all

lemma overlap_strict {a b : Rect} (h : rectangles_overlap a b = true) :
    b.x < a.x + a.width ∧ a.x < b.x + b.width ∧
    b.y < a.y + a.height ∧ a.y < b.y + b.height := by
  rw [rectangles_overlap_iff] at h
  push_neg at h
  exact ⟨h.1.1, h.1.2, h.2.1, h.2.2⟩

lemma qsum_map_add {α : Type*} (l : List α) (f g : α → ℚ) :
    (l.map fun z => f z + g z).sum = (l.map f).sum + (l.map g).sum := by
  induction l with
  | nil => simp
  | cons x t ih => simp only [List.map_cons, List.sum_cons, ih]; ring

lemma qsum_map_sub {α : Type*} (l : List α) (f g : α → ℚ) :
    (l.map fun z => f z - g z).sum = (l.map f).sum - (l.map g).sum := by
  induction l with
  | nil => simp
  | cons x t ih => simp only [List.map_cons, List.sum_cons, ih]; ring

lemma sum_ite_or {α : Type*} (l : List α) (P Q : α → Prop)
    [DecidablePred P] [DecidablePred Q] (f : α → ℚ) :
    (l.map fun z => if P z ∨ Q z then f z else 0).sum =
      (l.map fun z => if P z then f z else 0).sum +
      (l.map fun z => if Q z then f z else 0).sum -
      (l.map fun z => if P z ∧ Q z then f z else 0).sum := by
  have key : ∀ z, (if P z ∨ Q z then f z else 0) =
      ((if P z then f z else 0) + (if Q z then f z else 0)) -
        (if P z ∧ Q z then f z else 0) := by
    intro z
    by_cases hP : P z <;> by_cases hQ : Q z <;> simp [hP, hQ]
  rw [List.map_congr_left fun z _ => key z, qsum_map_sub, qsum_map_add]

lemma sum_ite_mul_factor {α β : Type*} (Lx : List α) (Ly : List β)
    (P : α → Prop) (Q : β → Prop) [DecidablePred P] [DecidablePred Q]
    (fx : α → ℚ) (fy : β → ℚ) :
    (Lx.map fun p => (Ly.map fun q => if P p ∧ Q q then fx p * fy q else 0).sum).sum =
      (Lx.map fun p => if P p then fx p else 0).sum *
      (Ly.map fun q => if Q q then fy q else 0).sum := by
  have inner : ∀ p, (Ly.map fun q => if P p ∧ Q q then fx p * fy q else 0).sum
      = (if P p then fx p else 0) * (Ly.map fun q => if Q q then fy q else 0).sum := by
    intro p
    by_cases hP : P p
    · simp only [hP, true_and, if_pos trivial]
      rw [← List.sum_map_mul_left]
      congr 1
      apply List.map_congr_left
      intro q _
      by_cases hQ : Q q <;> simp [hQ]
    · simp only [hP, false_and, if_false]
      rw [List.sum_eq_zero, zero_mul]
      intro z hz
      simp only [List.mem_map] at hz
      obtain ⟨q, _, rfl⟩ := hz
      simp
  rw [List.map_congr_left fun p _ => inner p, List.sum_map_mul_right]

/-! ### The sorted coordinate lists -/

lemma sortedCoords_sorted (l : List ℚ) : (sortedCoords l).Sorted (· < ·) := by
  have h1 : (sortedCoords l).Sorted (· ≤ ·) := List.sorted_insertionSort _ _
  have h2 : (sortedCoords l).Nodup :=
    ((List.perm_insertionSort _ _).nodup_iff).mpr (List.nodup_dedup l)
  exact h1.lt_of_le h2

lemma mem_sortedCoords {l : List ℚ} {a : ℚ} : a ∈ sortedCoords l ↔ a ∈ l :=
  ((List.perm_insertionSort _ _).mem_iff).trans List.mem_dedup

lemma mem_adjPairs {l : List ℚ} {p : ℚ × ℚ} (h : p ∈ adjPairs l) :
    p.1 ∈ l ∧ p.2 ∈ l.tail := by
  obtain ⟨u, v⟩ := p
  exact List.of_mem_zip h

lemma sorted_head_le {y : ℚ} {t : List ℚ} (hs : (y :: t).Sorted (· < ·)) :
    ∀ z ∈ y :: t, y ≤ z := by
  rw [List.sorted_cons] at hs
  intro z hz
  rcases List.mem_cons.mp hz with rfl | hz'
  · exact le_refl z
  · exact (hs.1 z hz').le

/-- Telescoping: in a strictly sorted coordinate list, the interval lengths
of the adjacent pairs lying inside `[a, b]` (with `a` and `b` both grid
coordinates) sum to `b - a`. -/
lemma telescope : ∀ (xs : List ℚ), xs.Sorted (· < ·) → ∀ a b : ℚ, a ∈ xs → b ∈ xs →
    a ≤ b →
    ((adjPairs xs).map fun p => if a ≤ p.1 ∧ p.2 ≤ b then p.2 - p.1 else 0).sum
      = b - a := by
  intro xs
  induction xs with
  | nil => intro _ a b ha; cases ha
  | cons x t ih =>
    intro hs a b ha hb hab
    rcases t with _ | ⟨y, t'⟩
    · -- singleton list: no adjacent pairs, and a = b = x
      simp only [List.mem_singleton] at ha hb
      subst ha; subst hb
      simp [adjPairs]
    · have hadj : adjPairs (x :: y :: t') = (x, y) :: adjPairs (y :: t') := rfl
      rw [List.sorted_cons] at hs
      obtain ⟨hx_lt, hs'⟩ := hs
      rcases List.mem_cons.mp ha with heqa | ha'
      · rcases List.mem_cons.mp hb with heqb | hb'
        · -- a = b = x: every adjacent pair fails the upper bound
          rw [heqa, heqb, hadj, List.map_cons, List.sum_cons, if_neg,
            List.sum_eq_zero]
          · ring
          · intro z hz
            simp only [List.mem_map] at hz
            obtain ⟨p, hp, rfl⟩ := hz
            have h2 := (mem_adjPairs hp).2
            have hxp : x < p.2 := hx_lt _ (List.mem_cons_of_mem _ h2)
            rw [if_neg]
            rintro ⟨-, hle⟩
            exact absurd (lt_of_lt_of_le hxp hle) (lt_irrefl _)
          · rintro ⟨-, hle⟩
            exact absurd (lt_of_lt_of_le (hx_lt y (List.mem_cons_self y t')) hle)
              (lt_irrefl _)
        · -- a = x, b in the tail
          have hyb : y ≤ b := sorted_head_le hs' b hb'
          rw [heqa, hadj, List.map_cons, List.sum_cons, if_pos ⟨le_refl x, hyb⟩]
          have hcongr : ∀ p ∈ adjPairs (y :: t'),
              (if x ≤ p.1 ∧ p.2 ≤ b then p.2 - p.1 else 0)
                = (if y ≤ p.1 ∧ p.2 ≤ b then p.2 - p.1 else 0) := by
            intro p hp
            have h1 : y ≤ p.1 := sorted_head_le hs' p.1 (mem_adjPairs hp).1
            have h2 : x ≤ p.1 := le_trans (hx_lt y (List.mem_cons_self y t')).le h1
            simp [h1, h2]
          rw [List.map_congr_left hcongr,
            ih hs' y b (List.mem_cons_self y t') hb' hyb]
          ring
      · -- a in the tail: the first pair fails the lower bound
        have hxa : x < a := hx_lt a ha'
        have hb' : b ∈ y :: t' := by
          rcases List.mem_cons.mp hb with rfl | hb' 
          · exact absurd (lt_of_lt_of_le hxa hab) (lt_irrefl _)
          · exact hb'
        rw [hadj, List.map_cons, List.sum_cons, if_neg, ih hs' a b ha' hb' hab,
          zero_add]
        rintro ⟨hle, -⟩
        exact absurd (lt_of_lt_of_le hxa hle) (lt_irrefl _)

/-! ### Coverage area of two overlapping rectangles -/

lemma coverage_eq_of_ne_nil {rs : List Rect} (h : rs ≠ []) :
    calculate_coverage_area rs =
      ((adjPairs (xCoords rs)).map fun p =>
        ((adjPairs (yCoords rs)).map fun q =>
          if cellCovered rs p.1 q.1 (p.2 - p.1) (q.2 - q.1)
          then (p.2 - p.1) * (q.2 - q.1) else 0).sum).sum := by
  unfold calculate_coverage_area
  rw [if_neg]
  simp [List.isEmpty_iff, h]

lemma grid_box_sum {X Y : List ℚ} (hX : X.Sorted (· < ·)) (hY : Y.Sorted (· < ·))
    {x₁ x₂ y₁ y₂ : ℚ} (hx₁ : x₁ ∈ X) (hx₂ : x₂ ∈ X) (hy₁ : y₁ ∈ Y) (hy₂ : y₂ ∈ Y)
    (hx : x₁ ≤ x₂) (hy : y₁ ≤ y₂) :
    ((adjPairs X).map fun p => ((adjPairs Y).map fun q =>
      if (x₁ ≤ p.1 ∧ p.2 ≤ x₂) ∧ (y₁ ≤ q.1 ∧ q.2 ≤ y₂)
      then (p.2 - p.1) * (q.2 - q.1) else 0).sum).sum
      = (x₂ - x₁) * (y₂ - y₁) := by
  have h := sum_ite_mul_factor (adjPairs X) (adjPairs Y)
    (fun p => x₁ ≤ p.1 ∧ p.2 ≤ x₂) (fun q => y₁ ≤ q.1 ∧ q.2 ≤ y₂)
    (fun p => p.2 - p.1) (fun q => q.2 - q.1)
  rw [telescope X hX x₁ x₂ hx₁ hx₂ hx, telescope Y hY y₁ y₂ hy₁ hy₂ hy] at h
  exact h

lemma coverage_two (a b : Rect) (haw : 0 < a.width) (hah : 0 < a.height)
    (hbw : 0 < b.width) (hbh : 0 < b.height)
    (hov : rectangles_overlap a b = true) :
    calculate_coverage_area [a, b] =
      a.width * a.height + b.width * b.height -
        (min (a.x + a.width) (b.x + b.width) - max a.x b.x) *
        (min (a.y + a.height) (b.y + b.height) - max a.y b.y) := by
  have hstrict := overlap_strict hov
  have hXs : (xCoords [a, b]).Sorted (· < ·) := sortedCoords_sorted _
  have hYs : (yCoords [a, b]).Sorted (· < ·) := sortedCoords_sorted _
  have hmx : ∀ r ∈ [a, b], r.x ∈ xCoords [a, b] := fun r hr =>
    mem_sortedCoords.mpr (List.mem_append_left _ (List.mem_map_of_mem _ hr))
  have hmx2 : ∀ r ∈ [a, b], r.x + r.width ∈ xCoords [a, b] := fun r hr =>
    mem_sortedCoords.mpr (List.mem_append_right _ (List.mem_map_of_mem _ hr))
  have hmy : ∀ r ∈ [a, b], r.y ∈ yCoords [a, b] := fun r hr =>
    mem_sortedCoords.mpr (List.mem_append_left _ (List.mem_map_of_mem _ hr))
  have hmy2 : ∀ r ∈ [a, b], r.y + r.height ∈ yCoords [a, b] := fun r hr =>
    mem_sortedCoords.mpr (List.mem_append_right _ (List.mem_map_of_mem _ hr))
  have hax : a.x ∈ xCoords [a, b] := hmx a (by simp)
  have hbx : b.x ∈ xCoords [a, b] := hmx b (by simp)
  have hax2 : a.x + a.width ∈ xCoords [a, b] := hmx2 a (by simp)
  have hbx2 : b.x + b.width ∈ xCoords [a, b] := hmx2 b (by simp)
  have hay : a.y ∈ yCoords [a, b] := hmy a (by simp)
  have hby : b.y ∈ yCoords [a, b] := hmy b (by simp)
  have hay2 : a.y + a.height ∈ yCoords [a, b] := hmy2 a (by simp)
  have hby2 : b.y + b.height ∈ yCoords [a, b] := hmy2 b (by simp)
  have hix : max a.x b.x ∈ xCoords [a, b] := by
    rcases max_choice a.x b.x with h | h <;> rw [h]
    · exact hax
    · exact hbx
  have hiy : max a.y b.y ∈ yCoords [a, b] := by
    rcases max_choice a.y b.y with h | h <;> rw [h]
    · exact hay
    · exact hby
  have hix2 : min (a.x + a.width) (b.x + b.width) ∈ xCoords [a, b] := by
    rcases min_choice (a.x + a.width) (b.x + b.width) with h | h <;> rw [h]
    · exact hax2
    · exact hbx2
  have hiy2 : min (a.y + a.height) (b.y + b.height) ∈ yCoords [a, b] := by
    rcases min_choice (a.y + a.height) (b.y + b.height) with h | h <;> rw [h]
    · exact hay2
    · exact hby2
  have hxlt : max a.x b.x < min (a.x + a.width) (b.x + b.width) := by
    rw [max_lt_iff]
    constructor <;> rw [lt_min_iff]
    · exact ⟨lt_add_of_pos_right _ haw, hstrict.2.1⟩
    · exact ⟨hstrict.1, lt_add_of_pos_right _ hbw⟩
  have hylt : max a.y b.y < min (a.y + a.height) (b.y + b.height) := by
    rw [max_lt_iff]
    constructor <;> rw [lt_min_iff]
    · exact ⟨lt_add_of_pos_right _ hah, hstrict.2.2.2⟩
    · exact ⟨hstrict.2.2.1, lt_add_of_pos_right _ hbh⟩
  rw [coverage_eq_of_ne_nil (by simp)]
  set X := xCoords [a, b] with hXdef
  set Y := yCoords [a, b] with hYdef
  clear_value X Y
  have hcell : ∀ p ∈ adjPairs X,
      ((adjPairs Y).map fun q =>
        if cellCovered [a, b] p.1 q.1 (p.2 - p.1) (q.2 - q.1)
        then (p.2 - p.1) * (q.2 - q.1) else 0).sum
      = ((adjPairs Y).map fun q =>
        if ((a.x ≤ p.1 ∧ p.2 ≤ a.x + a.width) ∧ (a.y ≤ q.1 ∧ q.2 ≤ a.y + a.height))
            ∨ ((b.x ≤ p.1 ∧ p.2 ≤ b.x + b.width) ∧ (b.y ≤ q.1 ∧ q.2 ≤ b.y + b.height))
        then (p.2 - p.1) * (q.2 - q.1) else 0).sum := by
    intro p _
    congr 1
    apply List.map_congr_left
    intro q _
    apply if_congr _ rfl rfl
    simp only [cellCovered, List.any_cons, List.any_nil, Bool.or_false,
      Bool.or_eq_true, decide_eq_true_eq]
    rw [add_sub_cancel, add_sub_cancel]
    tauto
  rw [List.map_congr_left hcell]
  have hsplit := List.map_congr_left (l := adjPairs X)
    (fun p _ => sum_ite_or (adjPairs Y)
      (fun q => (a.x ≤ p.1 ∧ p.2 ≤ a.x + a.width) ∧ (a.y ≤ q.1 ∧ q.2 ≤ a.y + a.height))
      (fun q => (b.x ≤ p.1 ∧ p.2 ≤ b.x + b.width) ∧ (b.y ≤ q.1 ∧ q.2 ≤ b.y + b.height))
      (fun q => (p.2 - p.1) * (q.2 - q.1)))
  rw [hsplit, qsum_map_sub, qsum_map_add]
  have hA := grid_box_sum hXs hYs hax hax2 hay hay2
    (le_add_of_nonneg_right haw.le) (le_add_of_nonneg_right hah.le)
  have hB := grid_box_sum hXs hYs hbx hbx2 hby hby2
    (le_add_of_nonneg_right hbw.le) (le_add_of_nonneg_right hbh.le)
  have hI := grid_box_sum hXs hYs hix hix2 hiy hiy2 hxlt.le hylt.le
  have hABcell : ∀ p ∈ adjPairs X,
      ((adjPairs Y).map fun q =>
        if ((a.x ≤ p.1 ∧ p.2 ≤ a.x + a.width) ∧ (a.y ≤ q.1 ∧ q.2 ≤ a.y + a.height))
            ∧ ((b.x ≤ p.1 ∧ p.2 ≤ b.x + b.width) ∧ (b.y ≤ q.1 ∧ q.2 ≤ b.y + b.height))
        then (p.2 - p.1) * (q.2 - q.1) else 0).sum
      = ((adjPairs Y).map fun q =>
        if (max a.x b.x ≤ p.1 ∧ p.2 ≤ min (a.x + a.width) (b.x + b.width))
            ∧ (max a.y b.y ≤ q.1 ∧ q.2 ≤ min (a.y + a.height) (b.y + b.height))
        then (p.2 - p.1) * (q.2 - q.1) else 0).sum := by
    intro p _
    congr 1
    apply List.map_congr_left
    intro q _
    apply if_congr _ rfl rfl
    rw [max_le_iff, max_le_iff, le_min_iff, le_min_iff]
    tauto
  rw [List.map_congr_left hABcell, hA, hB, hI]
  ring

/-! ### The maximum-overlap scan -/

lemma le_foldr_max {α : Type*} (f : α → ℕ) :
    ∀ (l : List α) (c : α), c ∈ l → f c ≤ (l.map f).foldr max 0 := by
  intro l
  induction l with
  | nil => intro c hc; cases hc
  | cons x t ih =>
    intro c hc
    rw [List.map_cons, List.foldr_cons]
    rcases List.mem_cons.mp hc with heq | hc'
    · rw [heq]; exact le_max_left _ _
    · exact (ih c hc').trans (le_max_right _ _)

lemma foldl_stepMax_stable (rs : List Rect) :
    ∀ (l : List (ℚ × ℚ)) (mp : MaxPoint),
      (∀ c ∈ l, pointCount rs c.1 c.2 ≤ mp.count) →
      l.foldl (stepMax rs) mp = mp := by
  intro l
  induction l with
  | nil => intro mp _; rfl
  | cons c t ih =>
    intro mp h
    rw [List.foldl_cons]
    have hstep : stepMax rs mp c = mp := by
      unfold stepMax
      rw [if_neg]
      exact not_lt.mpr (h c (List.mem_cons_self c t))
    rw [hstep]
    exact ih mp fun d hd => h d (List.mem_cons_of_mem _ hd)

/-- Folding the strict-improvement step over a scan list whose maximum
exceeds the initial count lands on the first element attaining the
maximum. -/
lemma foldl_stepMax_firstMax (rs : List Rect) :
    ∀ (l : List (ℚ × ℚ)) (mp : MaxPoint),
      mp.count < (l.map fun c => pointCount rs c.1 c.2).foldr max 0 →
      ∃ c, l.find? (fun c => pointCount rs c.1 c.2 ==
              (l.map fun c => pointCount rs c.1 c.2).foldr max 0) = some c ∧
        l.foldl (stepMax rs) mp = ⟨c.1, c.2, pointCount rs c.1 c.2⟩ ∧
        pointCount rs c.1 c.2 = (l.map fun c => pointCount rs c.1 c.2).foldr max 0 := by
  intro l
  induction l with
  | nil => intro mp h; simp at h
  | cons c0 t ih =>
    intro mp h
    have hM : ((c0 :: t).map fun c => pointCount rs c.1 c.2).foldr max 0
        = max (pointCount rs c0.1 c0.2)
            ((t.map fun c => pointCount rs c.1 c.2).foldr max 0) := by
      rw [List.map_cons, List.foldr_cons]
    by_cases hc : (t.map fun c => pointCount rs c.1 c.2).foldr max 0
        ≤ pointCount rs c0.1 c0.2
    · -- the head attains the overall maximum
      have hMeq : ((c0 :: t).map fun c => pointCount rs c.1 c.2).foldr max 0
          = pointCount rs c0.1 c0.2 := by rw [hM]; exact max_eq_left hc
      refine ⟨c0, ?_, ?_, hMeq.symm⟩
      · exact List.find?_cons_of_pos _ (by rw [hMeq]; exact beq_self_eq_true _)
      · rw [List.foldl_cons]
        have hstep : stepMax rs mp c0 = ⟨c0.1, c0.2, pointCount rs c0.1 c0.2⟩ := by
          unfold stepMax
          rw [if_pos]
          exact lt_of_lt_of_le h (le_of_eq hMeq)
        rw [hstep]
        exact foldl_stepMax_stable rs t _ fun d hd =>
          (le_foldr_max _ t d hd).trans hc
    · -- the maximum lives in the tail
      push_neg at hc
      have hMeq : ((c0 :: t).map fun c => pointCount rs c.1 c.2).foldr max 0
          = (t.map fun c => pointCount rs c.1 c.2).foldr max 0 := by
        rw [hM]; exact max_eq_right hc.le
      rw [hMeq] at h ⊢
      have hcount : (stepMax rs mp c0).count
          < (t.map fun c => pointCount rs c.1 c.2).foldr max 0 := by
        simp only [stepMax]
        split_ifs with hgt
        · exact hc
        · exact h
      obtain ⟨c, hf, hfold, hcnt⟩ := ih (stepMax rs mp c0) hcount
      refine ⟨c, ?_, ?_, hcnt⟩
      · rw [List.find?_cons_of_neg]
        · exact hf
        · simp only [beq_iff_eq]
          exact hc.ne
      · rw [List.foldl_cons]
        exact hfold

lemma exists_adjPair : ∀ (xs : List ℚ), xs.Sorted (· < ·) →
    ∀ a b : ℚ, a ∈ xs → b ∈ xs → a < b →
    ∃ p ∈ adjPairs xs, a ≤ p.1 ∧ p.1 < p.2 ∧ p.2 ≤ b := by
  intro xs
  induction xs with
  | nil => intro _ a b ha; cases ha
  | cons x t ih =>
    intro hs a b ha hb hab
    rw [List.sorted_cons] at hs
    obtain ⟨hx_lt, hs'⟩ := hs
    rcases List.mem_cons.mp ha with heqa | ha'
    · have hb' : b ∈ t := by
        rcases List.mem_cons.mp hb with heqb | hb'
        · rw [heqa, heqb] at hab; exact absurd hab (lt_irrefl x)
        · exact hb'
      rcases t with _ | ⟨y, t'⟩
      · cases hb'
      · refine ⟨(x, y), ?_, ?_, ?_, ?_⟩
        · exact List.mem_cons_self _ _
        · rw [heqa]
        · exact hx_lt y (List.mem_cons_self y t')
        · exact sorted_head_le hs' b hb'
    · have hxa : x < a := hx_lt a ha'
      have hb' : b ∈ t := by
        rcases List.mem_cons.mp hb with heqb | hb'
        · rw [heqb] at hab
          exact absurd hab (not_lt.mpr hxa.le)
        · exact hb'
      obtain ⟨p, hp, h1, h2, h3⟩ := ih hs' a b ha' hb' hab
      refine ⟨p, ?_, h1, h2, h3⟩
      rcases t with _ | ⟨y, t'⟩
      · cases hb'
      · exact List.mem_cons_of_mem _ hp

lemma exists_covered_center (rs : List Rect) (r : Rect) (hr : r ∈ rs)
    (hw : 0 < r.width) (hh : 0 < r.height) :
    ∃ c ∈ gridCenters rs, 0 < pointCount rs c.1 c.2 := by
  have hXs : (xCoords rs).Sorted (· < ·) := sortedCoords_sorted _
  have hYs : (yCoords rs).Sorted (· < ·) := sortedCoords_sorted _
  have hx1 : r.x ∈ xCoords rs :=
    mem_sortedCoords.mpr (List.mem_append_left _ (List.mem_map_of_mem _ hr))
  have hx2 : r.x + r.width ∈ xCoords rs :=
    mem_sortedCoords.mpr (List.mem_append_right _ (List.mem_map_of_mem _ hr))
  have hy1 : r.y ∈ yCoords rs :=
    mem_sortedCoords.mpr (List.mem_append_left _ (List.mem_map_of_mem _ hr))
  have hy2 : r.y + r.height ∈ yCoords rs :=
    mem_sortedCoords.mpr (List.mem_append_right _ (List.mem_map_of_mem _ hr))
  obtain ⟨p, hp, hpa, hplt, hpb⟩ := exists_adjPair (xCoords rs) hXs r.x
    (r.x + r.width) hx1 hx2 (lt_add_of_pos_right _ hw)
  obtain ⟨q, hq, hqa, hqlt, hqb⟩ := exists_adjPair (yCoords rs) hYs r.y
    (r.y + r.height) hy1 hy2 (lt_add_of_pos_right _ hh)
  refine ⟨((p.1 + p.2) / 2, (q.1 + q.2) / 2), ?_, ?_⟩
  · unfold gridCenters
    rw [List.mem_flatMap]
    exact ⟨p, hp, List.mem_map.mpr ⟨q, hq, rfl⟩⟩
  · unfold pointCount
    rw [List.countP_pos_iff]
    refine ⟨r, hr, ?_⟩
    simp only [decide_eq_true_eq]
    refine ⟨by linarith, by linarith, by linarith, by linarith⟩

/-! ### Overlap pair enumeration -/

lemma mem_find_overlaps (rs : List Rect) (p : ℕ × ℕ) :
    p ∈ find_overlaps rs ↔
      p.1 < p.2 ∧ p.2 < rs.length ∧
      rectangles_overlap (rs.getD p.1 default) (rs.getD p.2 default) = true := by
  obtain ⟨i, j⟩ := p
  unfold find_overlaps
  simp only [List.mem_flatMap, List.mem_filterMap, List.mem_range,
    List.mem_range'_1, Option.ite_none_right_eq_some, Option.some_inj,
    Prod.mk.injEq]
  constructor
  · rintro ⟨a, ha, b, ⟨hb1, hb2⟩, hov, rfl, rfl⟩
    exact ⟨by omega, by omega, hov⟩
  · rintro ⟨hij, hjn, hov⟩
    exact ⟨i, by omega, j, ⟨by omega, by omega⟩, hov, rfl, rfl⟩

lemma pairwise_flatMap_blocks {α : Type*} (f : ℕ → List α) (key : α → ℕ)
    (R : α → α → Prop) (l : List ℕ) (hl : l.Pairwise (· < ·))
    (hblock : ∀ i ∈ l, (f i).Pairwise R)
    (hkey : ∀ i ∈ l, ∀ x ∈ f i, key x = i)
    (hcross : ∀ x y, key x < key y → R x y) :
    (l.flatMap f).Pairwise R := by
  induction l with
  | nil => simp
  | cons a t ih =>
    rw [List.flatMap_cons, List.pairwise_append]
    rw [List.pairwise_cons] at hl
    refine ⟨hblock a (List.mem_cons_self a t),
      ih hl.2 (fun i hi => hblock i (List.mem_cons_of_mem _ hi))
        (fun i hi => hkey i (List.mem_cons_of_mem _ hi)), ?_⟩
    intro x hx y hy
    rw [List.mem_flatMap] at hy
    obtain ⟨b, hb, hyb⟩ := hy
    apply hcross
    rw [hkey a (List.mem_cons_self a t) x hx,
      hkey b (List.mem_cons_of_mem _ hb) y hyb]
    exact hl.1 b hb

lemma find_overlaps_pairwise (rs : List Rect) :
    (find_overlaps rs).Pairwise fun p q => p.1 < q.1 ∨ (p.1 = q.1 ∧ p.2 < q.2) := by
  unfold find_overlaps
  apply pairwise_flatMap_blocks _ Prod.fst _ _ (List.pairwise_lt_range _)
  · intro i _
    rw [List.pairwise_filterMap]
    apply List.Pairwise.imp ?_ (List.pairwise_lt_range' _ _)
    intro j j' hjj' x hx y hy
    rw [Option.mem_def, Option.ite_none_right_eq_some, Option.some_inj] at hx hy
    rw [← hx.2, ← hy.2]
    exact Or.inr ⟨rfl, hjj'⟩
  · intro i _ x hx
    rw [List.mem_filterMap] at hx
    obtain ⟨j, _, hsome⟩ := hx
    rw [Option.ite_none_right_eq_some, Option.some_inj] at hsome
    rw [← hsome.2]
  · intro x y h
    exact Or.inl h

lemma get_overlap_regions_eq (rs : List Rect) :
    get_overlap_regions rs = (find_overlaps rs).map fun p =>
      ⟨p, ⟨max (rs.getD p.1 default).x (rs.getD p.2 default).x,
           max (rs.getD p.1 default).y (rs.getD p.2 default).y,
           min ((rs.getD p.1 default).x + (rs.getD p.1 default).width)
               ((rs.getD p.2 default).x + (rs.getD p.2 default).width)
             - max (rs.getD p.1 default).x (rs.getD p.2 default).x,
           min ((rs.getD p.1 default).y + (rs.getD p.1 default).height)
               ((rs.getD p.2 default).y + (rs.getD p.2 default).height)
             - max (rs.getD p.1 default).y (rs.getD p.2 default).y⟩⟩ := by
  unfold get_overlap_regions find_overlaps
  rw [List.map_flatMap]
  have hpt : ∀ i j : ℕ,
      ((get_overlap_region (rs.getD i default) (rs.getD j default)).map
          fun region => (⟨(i, j), region⟩ : OverlapRegion))
      = Option.map (fun p : ℕ × ℕ =>
          (⟨p, ⟨max (rs.getD p.1 default).x (rs.getD p.2 default).x,
               max (rs.getD p.1 default).y (rs.getD p.2 default).y,
               min ((rs.getD p.1 default).x + (rs.getD p.1 default).width)
                   ((rs.getD p.2 default).x + (rs.getD p.2 default).width)
                 - max (rs.getD p.1 default).x (rs.getD p.2 default).x,
               min ((rs.getD p.1 default).y + (rs.getD p.1 default).height)
                   ((rs.getD p.2 default).y + (rs.getD p.2 default).height)
                 - max (rs.getD p.1 default).y (rs.getD p.2 default).y⟩⟩ : OverlapRegion))
          (if rectangles_overlap (rs.getD i default) (rs.getD j default)
           then some (i, j) else none) := by
    intro i j
    unfold get_overlap_region
    by_cases hov : rectangles_overlap (rs.getD i default) (rs.getD j default) = true
    · rw [if_neg (not_not_intro hov), if_pos hov]
      rfl
    · rw [if_pos hov, if_neg hov]
      rfl
  simp only [List.map_filterMap]
  congr 1
  funext i
  congr 1
  funext j
  exact hpt i j

/-! ### Construction-time validation -/

lemma validateFrom_cons_some {i : ℕ} {r : RawRect} {t : List RawRect} {k : ErrKind}
    (h : checkRecord r = some k) :
    validateFrom i (r :: t) = .error ⟨i, k⟩ := by
  unfold validateFrom
  rw [h]

lemma validateFrom_cons_none {i : ℕ} {r : RawRect} {t : List RawRect}
    (h : checkRecord r = none) :
    validateFrom i (r :: t) = validateFrom (i + 1) t := by
  conv_lhs => unfold validateFrom
  rw [h]

lemma validateFrom_ok (l : List RawRect) : ∀ i : ℕ,
    validateFrom i l = .ok () ↔ ∀ r ∈ l, checkRecord r = none := by
  induction l with
  | nil => intro i; simp [validateFrom]
  | cons r t ih =>
    intro i
    cases hc : checkRecord r with
    | some k =>
      rw [validateFrom_cons_some hc]
      simp only [List.forall_mem_cons]
      constructor
      · intro h; exact Except.noConfusion h
      · rintro ⟨h1, -⟩; rw [hc] at h1; cases h1
    | none =>
      rw [validateFrom_cons_none hc, ih (i + 1)]
      simp [List.forall_mem_cons, hc]

lemma validateFrom_error (l : List RawRect) : ∀ (i : ℕ) (e : ValidationError),
    validateFrom i l = .error e ↔
      ∃ k, k < l.length ∧ checkRecord (l.getD k default) = some e.kind ∧
        e.index = i + k ∧ ∀ m < k, checkRecord (l.getD m default) = none := by
  induction l with
  | nil => intro i e; simp [validateFrom]
  | cons r t ih =>
    intro i e
    cases hc : checkRecord r with
    | some k0 =>
      rw [validateFrom_cons_some hc]
      constructor
      · intro h
        obtain rfl : e = ⟨i, k0⟩ := (Except.error.inj h).symm
        refine ⟨0, Nat.succ_pos _, ?_, rfl, fun m hm => absurd hm (Nat.not_lt_zero m)⟩
        rw [List.getD_cons_zero, hc]
      · rintro ⟨k, hk, hck, hei, hall⟩
        cases k with
        | zero =>
          rw [List.getD_cons_zero, hc] at hck
          obtain ⟨ei, ek⟩ := e
          obtain rfl : k0 = ek := Option.some.inj hck
          obtain rfl : ei = i := by
            have h2 : ei = i + 0 := hei
            omega
          rfl
        | succ k' =>
          have h0 := hall 0 (Nat.succ_pos _)
          rw [List.getD_cons_zero, hc] at h0
          cases h0
    | none =>
      rw [validateFrom_cons_none hc, ih (i + 1)]
      constructor
      · rintro ⟨k, hk, hck, hei, hall⟩
        refine ⟨k + 1, by simp only [List.length_cons]; omega, ?_, by omega, ?_⟩
        · rw [List.getD_cons_succ]; exact hck
        · intro m hm
          cases m with
          | zero => rw [List.getD_cons_zero]; exact hc
          | succ m' => rw [List.getD_cons_succ]; exact hall m' (by omega)
      · rintro ⟨k, hk, hck, hei, hall⟩
        cases k with
        | zero =>
          rw [List.getD_cons_zero, hc] at hck
          cases hck
        | succ k' =>
          refine ⟨k', by simp only [List.length_cons] at hk; omega, ?_, by omega, ?_⟩
          · rw [List.getD_cons_succ] at hck; exact hck
          · intro m hm
            have h1 := hall (m + 1) (by omega)
            rw [List.getD_cons_succ] at h1
            exact h1

lemma validate_rectangles_error (rrs : List RawRect) (e : ValidationError) :
    validate_rectangles rrs = .error e ↔
      e.index < rrs.length ∧
      checkRecord (rrs.getD e.index default) = some e.kind ∧
      ∀ j < e.index, checkRecord (rrs.getD j default) = none := by
  unfold validate_rectangles
  rw [validateFrom_error]
  constructor
  · rintro ⟨k, hk, hck, hei, hall⟩
    obtain rfl : e.index = k := by omega
    exact ⟨hk, hck, hall⟩
  · rintro ⟨hk, hck, hall⟩
    exact ⟨e.index, hk, hck, by omega, hall⟩

lemma checkRecord_classification (r : RawRect) :
    (checkRecord r = some .missingField ↔
      ¬(r.x.isSome ∧ r.y.isSome ∧ r.width.isSome ∧ r.height.isSome)) ∧
    (checkRecord r = some .nonNumericField ↔
      (r.x.isSome ∧ r.y.isSome ∧ r.width.isSome ∧ r.height.isSome) ∧
      ¬((getField r.x).isNumeric ∧ (getField r.y).isNumeric ∧
        (getField r.width).isNumeric ∧ (getField r.height).isNumeric)) ∧
    (checkRecord r = some .negativeDimension ↔
      (r.x.isSome ∧ r.y.isSome ∧ r.width.isSome ∧ r.height.isSome) ∧
      ((getField r.x).isNumeric ∧ (getField r.y).isNumeric ∧
        (getField r.width).isNumeric ∧ (getField r.height).isNumeric) ∧
      ((getField r.width).ltZero ∨ (getField r.height).ltZero)) ∧
    (checkRecord r = some .zeroArea ↔
      (r.x.isSome ∧ r.y.isSome ∧ r.width.isSome ∧ r.height.isSome) ∧
      ((getField r.x).isNumeric ∧ (getField r.y).isNumeric ∧
        (getField r.width).isNumeric ∧ (getField r.height).isNumeric) ∧
      ¬((getField r.width).ltZero ∨ (getField r.height).ltZero) ∧
      ((getField r.width).eqZero ∨ (getField r.height).eqZero)) ∧
    (checkRecord r = none ↔
      (r.x.isSome ∧ r.y.isSome ∧ r.width.isSome ∧ r.height.isSome) ∧
      ((getField r.x).isNumeric ∧ (getField r.y).isNumeric ∧
        (getField r.width).isNumeric ∧ (getField r.height).isNumeric) ∧
      ¬((getField r.width).ltZero ∨ (getField r.height).ltZero) ∧
      ¬((getField r.width).eqZero ∨ (getField r.height).eqZero)) := by
  unfold checkRecord
  split_ifs with h1 h2 h3 h4 <;> simp_all

/-! ### Duplicate-geometry warnings -/

lemma checkIdenticalFrom_cons_some {i : ℕ} {seen : List (Rect × ℕ)} {r : Rect}
    {rest : List Rect} {j : ℕ} (h : seen.lookup r = some j) :
    checkIdenticalFrom i seen (r :: rest) =
      (i, j) :: checkIdenticalFrom (i + 1) seen rest := by
  conv_lhs => unfold checkIdenticalFrom
  rw [h]

lemma checkIdenticalFrom_cons_none {i : ℕ} {seen : List (Rect × ℕ)} {r : Rect}
    {rest : List Rect} (h : seen.lookup r = none) :
    checkIdenticalFrom i seen (r :: rest) =
      checkIdenticalFrom (i + 1) ((r, i) :: seen) rest := by
  conv_lhs => unfold checkIdenticalFrom
  rw [h]

lemma checkIdenticalFrom_fst_ge : ∀ (rest : List Rect) (i : ℕ)
    (seen : List (Rect × ℕ)), ∀ p ∈ checkIdenticalFrom i seen rest, i ≤ p.1 := by
  intro rest
  induction rest with
  | nil => intro i seen p hp; cases hp
  | cons r rest' ih =>
    intro i seen p hp
    cases hlook : seen.lookup r with
    | some j =>
      rw [checkIdenticalFrom_cons_some hlook] at hp
      rcases List.mem_cons.mp hp with heq | hp'
      · rw [heq]
      · exact (Nat.le_succ i).trans (ih (i + 1) seen p hp')
    | none =>
      rw [checkIdenticalFrom_cons_none hlook] at hp
      exact (Nat.le_succ i).trans (ih (i + 1) _ p hp)

lemma checkIdenticalFrom_pairwise : ∀ (rest : List Rect) (i : ℕ)
    (seen : List (Rect × ℕ)),
    (checkIdenticalFrom i seen rest).Pairwise fun p q => p.1 < q.1 := by
  intro rest
  induction rest with
  | nil => intro i seen; exact List.Pairwise.nil
  | cons r rest' ih =>
    intro i seen
    cases hlook : seen.lookup r with
    | some j =>
      rw [checkIdenticalFrom_cons_some hlook, List.pairwise_cons]
      exact ⟨fun q hq => lt_of_lt_of_le (Nat.lt_succ_self i)
        (checkIdenticalFrom_fst_ge rest' (i + 1) seen q hq), ih (i + 1) seen⟩
    | none =>
      rw [checkIdenticalFrom_cons_none hlook]
      exact ih (i + 1) _

/-- The warning list of the duplicate scan, characterized against the full
rectangle list: starting from a `seen` table that exactly describes the
already-processed prefix, the warnings are precisely the pairs
`(i, j)` where index `i` repeats an earlier geometry and `j` is the least
index carrying that geometry. -/
lemma checkIdenticalFrom_mem : ∀ (rest pre : List Rect) (seen : List (Rect × ℕ)),
    (∀ (g : Rect) (j : ℕ), seen.lookup g = some j ↔
      (j < pre.length ∧ pre.getD j default = g ∧
        ∀ k < j, pre.getD k default ≠ g)) →
    ∀ p : ℕ × ℕ,
      p ∈ checkIdenticalFrom pre.length seen rest ↔
        (pre.length ≤ p.1 ∧ p.1 < pre.length + rest.length ∧ p.2 < p.1 ∧
         (pre ++ rest).getD p.2 default = (pre ++ rest).getD p.1 default ∧
         ∀ k < p.2, (pre ++ rest).getD k default ≠ (pre ++ rest).getD p.1 default) := by
  intro rest
  induction rest with
  | nil =>
    intro pre seen hinv p
    constructor
    · intro hp; cases hp
    · rintro ⟨h1, h2, -⟩
      simp only [List.length_nil] at h2
      omega
  | cons r rest' ih =>
    intro pre seen hinv p
    have hfull_at : (pre ++ r :: rest').getD pre.length default = r := by
      rw [List.getD_append_right _ _ _ _ (le_refl _), Nat.sub_self,
        List.getD_cons_zero]
    have hfull_pre : ∀ k, k < pre.length →
        (pre ++ r :: rest').getD k default = pre.getD k default :=
      fun k hk => List.getD_append _ _ _ _ hk
    have hlen : (pre ++ [r]).length = pre.length + 1 := by simp
    have hfull2 : (pre ++ [r]) ++ rest' = pre ++ r :: rest' := by simp
    cases hlook : seen.lookup r with
    | some j =>
      obtain ⟨hj1, hj2, hj3⟩ := (hinv r j).mp hlook
      rw [checkIdenticalFrom_cons_some hlook]
      have hinv' : ∀ (g : Rect) (j' : ℕ), seen.lookup g = some j' ↔
          (j' < (pre ++ [r]).length ∧ (pre ++ [r]).getD j' default = g ∧
            ∀ k < j', (pre ++ [r]).getD k default ≠ g) := by
        intro g j'
        rw [hinv g j']
        constructor
        · rintro ⟨h1, h2, h3⟩
          refine ⟨by rw [hlen]; omega, ?_, ?_⟩
          · rw [List.getD_append _ _ _ _ h1]; exact h2
          · intro k hk
            rw [List.getD_append _ _ _ _ (lt_trans hk h1)]
            exact h3 k hk
        · rintro ⟨h1, h2, h3⟩
          have hj'lt : j' < pre.length := by
            rcases Nat.lt_or_ge j' pre.length with hlt | hge
            · exact hlt
            · exfalso
              obtain rfl : j' = pre.length := by rw [hlen] at h1; omega
              rw [List.getD_append_right _ _ _ _ (le_refl _), Nat.sub_self,
                List.getD_cons_zero] at h2
              have h4 := h3 j hj1
              rw [List.getD_append _ _ _ _ hj1] at h4
              exact h4 (by rw [hj2, h2])
          refine ⟨hj'lt, ?_, ?_⟩
          · rw [List.getD_append _ _ _ _ hj'lt] at h2; exact h2
          · intro k hk
            have h4 := h3 k hk
            rw [List.getD_append _ _ _ _ (lt_trans hk hj'lt)] at h4
            exact h4
      have htail := ih (pre ++ [r]) seen hinv'
      rw [hlen, hfull2] at htail
      rw [List.mem_cons]
      constructor
      · rintro (heq | hmem)
        · rw [heq]
          refine ⟨le_refl _, by simp only [List.length_cons]; omega, hj1, ?_, ?_⟩
          · rw [hfull_at, hfull_pre j hj1, hj2]
          · intro k hk
            rw [hfull_at, hfull_pre k (lt_trans hk hj1)]
            exact hj3 k hk
        · obtain ⟨g1, g2, g3, g4, g5⟩ := (htail p).mp hmem
          refine ⟨by omega, by simp only [List.length_cons]; omega, g3, g4, g5⟩
      · rintro ⟨hge, hlt, hji, heq, hall⟩
        rcases Nat.lt_or_ge p.1 (pre.length + 1) with hp1 | hp1
        · left
          obtain hp1' : p.1 = pre.length := by omega
          have hp2r : pre.getD p.2 default = r := by
            have h5 := heq
            rw [hp1', hfull_at] at h5
            rw [← hfull_pre p.2 (by omega)]
            exact h5
          have hp2j : p.2 = j := by
            rcases lt_trichotomy p.2 j with hlt' | heq' | hgt'
            · exact absurd hp2r (hj3 p.2 hlt')
            · exact heq'
            · exfalso
              have h6 := hall j (by omega)
              rw [hp1', hfull_at, hfull_pre j hj1] at h6
              exact h6 hj2
          exact Prod.ext_iff.mpr ⟨hp1', hp2j⟩
        · right
          apply (htail p).mpr
          refine ⟨by omega, by simp only [List.length_cons] at hlt; omega,
            hji, heq, hall⟩
    | none =>
      rw [checkIdenticalFrom_cons_none hlook]
      have hnotin : ∀ k, k < pre.length → pre.getD k default ≠ r := by
        intro k hk hkr
        have hex : ∃ m, m < pre.length ∧ pre.getD m default = r := ⟨k, hk, hkr⟩
        have hfind := Nat.find_spec hex
        have hsome : seen.lookup r = some (Nat.find hex) := by
          rw [hinv r (Nat.find hex)]
          refine ⟨hfind.1, hfind.2, ?_⟩
          intro m hm hmr
          exact Nat.find_min hex hm ⟨lt_trans hm hfind.1, hmr⟩
        rw [hlook] at hsome
        cases hsome
      have hinv' : ∀ (g : Rect) (j' : ℕ),
          ((r, pre.length) :: seen).lookup g = some j' ↔
          (j' < (pre ++ [r]).length ∧ (pre ++ [r]).getD j' default = g ∧
            ∀ k < j', (pre ++ [r]).getD k default ≠ g) := by
        intro g j'
        rw [List.lookup_cons]
        by_cases hgr : g = r
        · rw [hgr]
          rw [show (r == r) = true from beq_self_eq_true r]
          constructor
          · intro h
            obtain rfl : j' = pre.length := (Option.some.inj h).symm
            refine ⟨by rw [hlen]; omega, ?_, ?_⟩
            · rw [List.getD_append_right _ _ _ _ (le_refl _), Nat.sub_self,
                List.getD_cons_zero]
            · intro k hk
              rw [List.getD_append _ _ _ _ hk]
              exact hnotin k hk
          · rintro ⟨h1, h2, h3⟩
            have hj'eq : j' = pre.length := by
              rcases Nat.lt_or_ge j' pre.length with hlt | hge
              · exfalso
                rw [List.getD_append _ _ _ _ hlt] at h2
                exact hnotin j' hlt h2
              · rw [hlen] at h1; omega
            rw [hj'eq]
        · rw [show (g == r) = false from beq_eq_false_iff_ne.mpr hgr]
          rw [hinv g j']
          constructor
          · rintro ⟨h1, h2, h3⟩
            refine ⟨by rw [hlen]; omega, ?_, ?_⟩
            · rw [List.getD_append _ _ _ _ h1]; exact h2
            · intro k hk
              rw [List.getD_append _ _ _ _ (lt_trans hk h1)]
              exact h3 k hk
          · rintro ⟨h1, h2, h3⟩
            have hj'lt : j' < pre.length := by
              rcases Nat.lt_or_ge j' pre.length with hlt | hge
              · exact hlt
              · exfalso
                obtain rfl : j' = pre.length := by rw [hlen] at h1; omega
                rw [List.getD_append_right _ _ _ _ (le_refl _), Nat.sub_self,
                  List.getD_cons_zero] at h2
                exact hgr h2.symm
            refine ⟨hj'lt, ?_, ?_⟩
            · rw [List.getD_append _ _ _ _ hj'lt] at h2; exact h2
            · intro k hk
              have h4 := h3 k hk
              rw [List.getD_append _ _ _ _ (lt_trans hk hj'lt)] at h4
              exact h4
      have htail := ih (pre ++ [r]) ((r, pre.length) :: seen) hinv'
      rw [hlen, hfull2] at htail
      rw [htail p]
      constructor
      · rintro ⟨hge, hlt, hji, heq, hall⟩
        exact ⟨by omega, by simp only [List.length_cons]; omega, hji, heq, hall⟩
      · rintro ⟨hge, hlt, hji, heq, hall⟩
        have hne : p.1 ≠ pre.length := by
          intro hp1
          have hp2r : pre.getD p.2 default = r := by
            have h5 := heq
            rw [hp1, hfull_at] at h5
            rw [← hfull_pre p.2 (by omega)]
            exact h5
          exact hnotin p.2 (by omega) hp2r
        exact ⟨by omega, by simp only [List.length_cons] at hlt; omega,
          hji, heq, hall⟩

lemma mem_check_identical (rs : List Rect) (p : ℕ × ℕ) :
    p ∈ check_identical_rectangles rs ↔
      (p.1 < rs.length ∧ p.2 < p.1 ∧
       rs.getD p.2 default = rs.getD p.1 default ∧
       ∀ k < p.2, rs.getD k default ≠ rs.getD p.1 default) := by
  have h := checkIdenticalFrom_mem rs [] []
    (by
      intro g j
      constructor
      · intro hl; cases hl
      · rintro ⟨h1, -⟩; cases h1)
    p
  unfold check_identical_rectangles
  rw [show (0 : ℕ) = List.length ([] : List Rect) from rfl]
  rw [h]
  simp only [List.nil_append, List.length_nil]
  constructor
  · rintro ⟨-, h2, h3, h4, h5⟩
    exact ⟨by omega, h3, h4, h5⟩
  · rintro ⟨h2, h3, h4, h5⟩
    exact ⟨Nat.zero_le _, by omega, h3, h4, h5⟩

/-! ### Concrete test rectangles (from the repository's test suite) -/

/-- The first rectangle of the repository's standard test scenario. -/
def rectA : Rect := ⟨0, 0, 4, 3⟩

/-- The second rectangle of the repository's standard test scenario. -/
def rectB : Rect := ⟨2, 1, 3, 3⟩

lemma getD_mem_of_lt {rs : List Rect} {n : ℕ} (h : n < rs.length) :
    rs.getD n default ∈ rs := by
  rw [List.getD_eq_getElem _ _ h]
  exact List.getElem_mem h

/-! ### Claim theorems -/

/-- C2: the pairwise overlap test returns `true` iff the projections on both
axes have positive-length intersection — `NOT (a.x+a.width ≤ b.x OR
b.x+b.width ≤ a.x) AND NOT (a.y+a.height ≤ b.y OR b.y+b.height ≤ a.y)` —
and rectangles that merely touch along an edge or at a corner are not
overlapping. -/
theorem spec_C2 :
    (∀ a b : Rect, rectangles_overlap a b = true ↔
      ¬(a.x + a.width ≤ b.x ∨ b.x + b.width ≤ a.x) ∧
      ¬(a.y + a.height ≤ b.y ∨ b.y + b.height ≤ a.y)) ∧
    rectangles_overlap ⟨0, 0, 2, 2⟩ ⟨2, 0, 2, 2⟩ = false ∧
    rectangles_overlap ⟨0, 0, 2, 2⟩ ⟨2, 2, 2, 2⟩ = false := by
  refine ⟨rectangles_overlap_iff, ?_, ?_⟩ <;> norm_num [rectangles_overlap]

/-- C5: `is_point_covered` is true iff some rectangle contains the point
with boundary-inclusive (closed-interval) membership; the empty collection
covers nothing, and for the rectangle `{x:0, y:0, width:4, height:3}` all
eight listed boundary points are covered. -/
theorem spec_C5 :
    (∀ (rs : List Rect) (x y : ℚ), is_point_covered rs x y = true ↔
      ∃ r ∈ rs, r.x ≤ x ∧ x ≤ r.x + r.width ∧ r.y ≤ y ∧ y ≤ r.y + r.height) ∧
    (∀ x y : ℚ, is_point_covered [] x y = false) ∧
    (is_point_covered [⟨0, 0, 4, 3⟩] 0 0 = true ∧
     is_point_covered [⟨0, 0, 4, 3⟩] 4 0 = true ∧
     is_point_covered [⟨0, 0, 4, 3⟩] 0 3 = true ∧
     is_point_covered [⟨0, 0, 4, 3⟩] 4 3 = true ∧
     is_point_covered [⟨0, 0, 4, 3⟩] 2 0 = true ∧
     is_point_covered [⟨0, 0, 4, 3⟩] 2 3 = true ∧
     is_point_covered [⟨0, 0, 4, 3⟩] 0 (3 / 2) = true ∧
     is_point_covered [⟨0, 0, 4, 3⟩] 4 (3 / 2) = true) := by
  refine ⟨?_, fun x y => rfl, ?_⟩
  · intro rs x y
    simp [is_point_covered, List.any_eq_true]
  · refine ⟨?_, ?_, ?_, ?_, ?_, ?_, ?_, ?_⟩ <;> norm_num [is_point_covered]

/-- C4 (code bug): the spec's invariant demands that every accepted
rectangle has finite fields and positive dimensions, but the constructor
accepts `width = inf` and `width = nan` — `isinstance` treats them as
numeric, and neither `v < 0` nor `v == 0` holds for them — so the stored
collection contains a non-finite width. -/
theorem spec_C4 :
    validate_rectangles
        [⟨some (.num 0), some (.num 0), some .infVal, some (.num 1)⟩] = .ok () ∧
    (getField (RawRect.width
        ⟨some (.num 0), some (.num 0), some .infVal, some (.num 1)⟩)).isFinite
      = false ∧
    validate_rectangles
        [⟨some (.num 0), some (.num 0), some .nanVal, some (.num 1)⟩] = .ok () ∧
    (getField (RawRect.width
        ⟨some (.num 0), some (.num 0), some .nanVal, some (.num 1)⟩)).isFinite
      = false := by
  refine ⟨?_, rfl, ?_, rfl⟩ <;> rfl

/-- C7: construction fails synchronously exactly on the first invalid
record, with the error classified as MissingField / NonNumericField /
NegativeDimension / ZeroArea in that priority order; on a fully valid
collection construction succeeds; and every post-construction operation is
total, with the empty collection producing the defined zero/empty
results. -/
theorem spec_C7 :
    (∀ (rrs : List RawRect) (e : ValidationError),
        validate_rectangles rrs = .error e ↔
          e.index < rrs.length ∧
          checkRecord (rrs.getD e.index default) = some e.kind ∧
          ∀ j < e.index, checkRecord (rrs.getD j default) = none) ∧
    (∀ rrs : List RawRect, validate_rectangles rrs = .ok () ↔
        ∀ r ∈ rrs, checkRecord r = none) ∧
    (∀ r : RawRect,
      (checkRecord r = some .missingField ↔
        ¬(r.x.isSome ∧ r.y.isSome ∧ r.width.isSome ∧ r.height.isSome)) ∧
      (checkRecord r = some .nonNumericField ↔
        (r.x.isSome ∧ r.y.isSome ∧ r.width.isSome ∧ r.height.isSome) ∧
        ¬((getField r.x).isNumeric ∧ (getField r.y).isNumeric ∧
          (getField r.width).isNumeric ∧ (getField r.height).isNumeric)) ∧
      (checkRecord r = some .negativeDimension ↔
        (r.x.isSome ∧ r.y.isSome ∧ r.width.isSome ∧ r.height.isSome) ∧
        ((getField r.x).isNumeric ∧ (getField r.y).isNumeric ∧
          (getField r.width).isNumeric ∧ (getField r.height).isNumeric) ∧
        ((getField r.width).ltZero ∨ (getField r.height).ltZero)) ∧
      (checkRecord r = some .zeroArea ↔
        (r.x.isSome ∧ r.y.isSome ∧ r.width.isSome ∧ r.height.isSome) ∧
        ((getField r.x).isNumeric ∧ (getField r.y).isNumeric ∧
          (getField r.width).isNumeric ∧ (getField r.height).isNumeric) ∧
        ¬((getField r.width).ltZero ∨ (getField r.height).ltZero) ∧
        ((getField r.width).eqZero ∨ (getField r.height).eqZero)) ∧
      (checkRecord r = none ↔
        (r.x.isSome ∧ r.y.isSome ∧ r.width.isSome ∧ r.height.isSome) ∧
        ((getField r.x).isNumeric ∧ (getField r.y).isNumeric ∧
          (getField r.width).isNumeric ∧ (getField r.height).isNumeric) ∧
        ¬((getField r.width).ltZero ∨ (getField r.height).ltZero) ∧
        ¬((getField r.width).eqZero ∨ (getField r.height).eqZero))) ∧
    (find_overlaps [] = [] ∧ calculate_coverage_area [] = 0 ∧
     get_overlap_regions [] = [] ∧ (∀ x y : ℚ, is_point_covered [] x y = false) ∧
     find_max_overlap_point [] = ⟨0, 0, 0⟩ ∧ get_stats [] = ⟨0, 0, 0, 0, 0⟩) :=
  ⟨validate_rectangles_error, fun rrs => validateFrom_ok rrs 0,
   checkRecord_classification,
   rfl, rfl, rfl, fun _ _ => rfl, rfl, rfl⟩

/-- C6: `find_overlaps` returns exactly the index pairs `(i, j)` with
`i < j` whose rectangles overlap, in strictly increasing lexicographic
order, and `get_overlap_regions` returns the same pairs in the same order,
each paired with the intersection rectangle given by the max/min corner
formula. -/
theorem spec_C6 :
    (∀ (rs : List Rect) (p : ℕ × ℕ), p ∈ find_overlaps rs ↔
        p.1 < p.2 ∧ p.2 < rs.length ∧
        rectangles_overlap (rs.getD p.1 default) (rs.getD p.2 default) = true) ∧
    (∀ rs : List Rect, (find_overlaps rs).Pairwise fun p q =>
        p.1 < q.1 ∨ (p.1 = q.1 ∧ p.2 < q.2)) ∧
    (∀ rs : List Rect, get_overlap_regions rs = (find_overlaps rs).map fun p =>
        ⟨p, ⟨max (rs.getD p.1 default).x (rs.getD p.2 default).x,
             max (rs.getD p.1 default).y (rs.getD p.2 default).y,
             min ((rs.getD p.1 default).x + (rs.getD p.1 default).width)
                 ((rs.getD p.2 default).x + (rs.getD p.2 default).width)
               - max (rs.getD p.1 default).x (rs.getD p.2 default).x,
             min ((rs.getD p.1 default).y + (rs.getD p.1 default).height)
                 ((rs.getD p.2 default).y + (rs.getD p.2 default).height)
               - max (rs.getD p.1 default).y (rs.getD p.2 default).y⟩⟩) :=
  ⟨mem_find_overlaps, find_overlaps_pairwise, get_overlap_regions_eq⟩

/-- C10: every region emitted by `get_overlap_regions` on a valid
collection has strictly positive width and height. -/
theorem spec_C10 (rs : List Rect)
    (hv : ∀ r ∈ rs, 0 < r.width ∧ 0 < r.height) :
    ∀ o ∈ get_overlap_regions rs, 0 < o.region.width ∧ 0 < o.region.height := by
  intro o ho
  rw [get_overlap_regions_eq, List.mem_map] at ho
  obtain ⟨p, hp, rfl⟩ := ho
  rw [mem_find_overlaps] at hp
  obtain ⟨hij, hjn, hov⟩ := hp
  have hv1 := hv _ (getD_mem_of_lt (n := p.1) (by omega))
  have hv2 := hv _ (getD_mem_of_lt (n := p.2) (by omega))
  have hs := overlap_strict hov
  constructor
  · show 0 < min ((rs.getD p.1 default).x + (rs.getD p.1 default).width)
        ((rs.getD p.2 default).x + (rs.getD p.2 default).width)
      - max (rs.getD p.1 default).x (rs.getD p.2 default).x
    rw [sub_pos, max_lt_iff]
    constructor <;> rw [lt_min_iff]
    · exact ⟨lt_add_of_pos_right _ hv1.1, hs.2.1⟩
    · exact ⟨hs.1, lt_add_of_pos_right _ hv2.1⟩
  · show 0 < min ((rs.getD p.1 default).y + (rs.getD p.1 default).height)
        ((rs.getD p.2 default).y + (rs.getD p.2 default).height)
      - max (rs.getD p.1 default).y (rs.getD p.2 default).y
    rw [sub_pos, max_lt_iff]
    constructor <;> rw [lt_min_iff]
    · exact ⟨lt_add_of_pos_right _ hv1.2, hs.2.2.2⟩
    · exact ⟨hs.2.2.1, lt_add_of_pos_right _ hv2.2⟩

/-- C8: duplicate geometries never block construction; each rectangle whose
geometry already occurred earlier produces exactly one warning, referencing
the least index with that geometry (the warnings have strictly increasing
first components, so there is exactly one per duplicate index); and in the
repository's duplicate scenario one warning is emitted while
`find_overlaps` still reports all three pairs. -/
theorem spec_C8 :
    (∀ (rs : List Rect) (p : ℕ × ℕ), p ∈ check_identical_rectangles rs ↔
        (p.1 < rs.length ∧ p.2 < p.1 ∧
         rs.getD p.2 default = rs.getD p.1 default ∧
         ∀ k < p.2, rs.getD k default ≠ rs.getD p.1 default)) ∧
    (∀ rs : List Rect, (check_identical_rectangles rs).Pairwise fun p q =>
        p.1 < q.1) ∧
    check_identical_rectangles [rectA, rectA, rectB] = [(1, 0)] ∧
    find_overlaps [rectA, rectA, rectB] = [(0, 1), (0, 2), (1, 2)] ∧
    validate_rectangles [rawOf rectA, rawOf rectA, rawOf rectB] = .ok () := by
  refine ⟨mem_check_identical, fun rs => checkIdenticalFrom_pairwise rs 0 [],
    ?_, ?_, ?_⟩
  · rfl
  · have e0 : ([rectA, rectA, rectB] : List Rect).getD 0 default = rectA := rfl
    have e1 : ([rectA, rectA, rectB] : List Rect).getD 1 default = rectA := rfl
    have e2 : ([rectA, rectA, rectB] : List Rect).getD 2 default = rectB := rfl
    have f0 : ([rectA, rectA, rectB] : List Rect)[0]?.getD default = rectA := rfl
    have f1 : ([rectA, rectA, rectB] : List Rect)[1]?.getD default = rectA := rfl
    have f2 : ([rectA, rectA, rectB] : List Rect)[2]?.getD default = rectB := rfl
    norm_num [find_overlaps, e0, e1, e2, f0, f1, f2, rectangles_overlap,
      rectA, rectB, List.range_succ, List.range', List.filterMap_cons]
  · rfl

/-- C9: `get_stats` returns the collection size, the number of overlapping
pairs, the coverage area, the sum of the pairwise overlap-region areas, and
the coverage efficiency (total area over summed individual areas when that
sum is positive, else 0); on the repository's test scenario this gives
`{2, 1, 17, 4, 17/21}`. -/
theorem spec_C9 :
    (∀ rs : List Rect, get_stats rs = ⟨rs.length, (find_overlaps rs).length,
        calculate_coverage_area rs,
        ((get_overlap_regions rs).map fun o =>
          o.region.width * o.region.height).sum,
        if 0 < (rs.map fun r => r.width * r.height).sum
        then calculate_coverage_area rs / (rs.map fun r => r.width * r.height).sum
        else 0⟩) ∧
    get_stats [rectA, rectB] = ⟨2, 1, 17, 4, 17 / 21⟩ := by
  constructor
  · intro rs; rfl
  · have e0 : ([rectA, rectB] : List Rect).getD 0 default = rectA := rfl
    have e1 : ([rectA, rectB] : List Rect).getD 1 default = rectB := rfl
    have f0 : ([rectA, rectB] : List Rect)[0]?.getD default = rectA := rfl
    have f1 : ([rectA, rectB] : List Rect)[1]?.getD default = rectB := rfl
    norm_num [get_stats, find_overlaps, get_overlap_regions,
      get_overlap_region, rectangles_overlap, calculate_coverage_area,
      xCoords, yCoords, sortedCoords, adjPairs, cellCovered, rectA, rectB,
      e0, e1, f0, f1, List.dedup, List.insertionSort, List.orderedInsert,
      List.pwFilter, List.range_succ, List.range', List.filterMap_cons]

/-- C1: for two valid overlapping rectangles the coverage area equals
`area(a) + area(b) - area(intersection(a, b))`, with the intersection given
by `_get_overlap_region`'s max/min formula. -/
theorem spec_C1 (a b : Rect) (haw : 0 < a.width) (hah : 0 < a.height)
    (hbw : 0 < b.width) (hbh : 0 < b.height)
    (hov : rectangles_overlap a b = true) :
    get_overlap_region a b = some ⟨max a.x b.x, max a.y b.y,
        min (a.x + a.width) (b.x + b.width) - max a.x b.x,
        min (a.y + a.height) (b.y + b.height) - max a.y b.y⟩ ∧
    calculate_coverage_area [a, b] =
      a.width * a.height + b.width * b.height -
        (min (a.x + a.width) (b.x + b.width) - max a.x b.x) *
        (min (a.y + a.height) (b.y + b.height) - max a.y b.y) := by
  refine ⟨?_, coverage_two a b haw hah hbw hbh hov⟩
  unfold get_overlap_region
  rw [if_neg (not_not_intro hov)]

/-- Witness for C1 at the repository's test rectangles: coverage
`17 = 12 + 9 - 4`. -/
theorem spec_C1_witness :
    get_overlap_region rectA rectB = some ⟨max rectA.x rectB.x,
        max rectA.y rectB.y,
        min (rectA.x + rectA.width) (rectB.x + rectB.width)
          - max rectA.x rectB.x,
        min (rectA.y + rectA.height) (rectB.y + rectB.height)
          - max rectA.y rectB.y⟩ ∧
    calculate_coverage_area [rectA, rectB] =
      rectA.width * rectA.height + rectB.width * rectB.height -
        (min (rectA.x + rectA.width) (rectB.x + rectB.width)
          - max rectA.x rectB.x) *
        (min (rectA.y + rectA.height) (rectB.y + rectB.height)
          - max rectA.y rectB.y) :=
  spec_C1 rectA rectB (by norm_num [rectA]) (by norm_num [rectA])
    (by norm_num [rectB]) (by norm_num [rectB])
    (by norm_num [rectangles_overlap, rectA, rectB])

/-- C3: on a non-empty valid collection, `find_max_overlap_point` returns
the center of the first grid cell (x-major scan order) whose center attains
the maximum containment count, together with that count; on the empty
collection it returns `{x: 0, y: 0, count: 0}`. -/
theorem spec_C3 :
    find_max_overlap_point [] = ⟨0, 0, 0⟩ ∧
    ∀ rs : List Rect, rs ≠ [] → (∀ r ∈ rs, 0 < r.width ∧ 0 < r.height) →
      (gridCenters rs).find? (fun c => pointCount rs c.1 c.2 ==
          ((gridCenters rs).map fun c => pointCount rs c.1 c.2).foldr max 0)
        = some ((find_max_overlap_point rs).x, (find_max_overlap_point rs).y) ∧
      (find_max_overlap_point rs).count
        = ((gridCenters rs).map fun c => pointCount rs c.1 c.2).foldr max 0 := by
  refine ⟨rfl, ?_⟩
  intro rs hne hv
  obtain ⟨r, hr⟩ := List.exists_mem_of_ne_nil rs hne
  obtain ⟨c₀, hc₀, hpos⟩ := exists_covered_center rs r hr (hv r hr).1 (hv r hr).2
  have hMpos : (0 : ℕ) <
      ((gridCenters rs).map fun c => pointCount rs c.1 c.2).foldr max 0 :=
    lt_of_lt_of_le hpos
      (le_foldr_max (fun c : ℚ × ℚ => pointCount rs c.1 c.2)
        (gridCenters rs) c₀ hc₀)
  obtain ⟨c, hfind, hfoldeq, hcnt⟩ :=
    foldl_stepMax_firstMax rs (gridCenters rs) ⟨0, 0, 0⟩ hMpos
  have hresult : find_max_overlap_point rs = ⟨c.1, c.2, pointCount rs c.1 c.2⟩ := by
    unfold find_max_overlap_point
    rw [if_neg (by simp [List.isEmpty_iff, hne])]
    exact hfoldeq
  rw [hresult]
  exact ⟨by rw [hfind], hcnt⟩

/-- Witness for C3 at the repository's test rectangles. -/
theorem spec_C3_witness :
    (gridCenters [rectA, rectB]).find? (fun c =>
        pointCount [rectA, rectB] c.1 c.2 ==
        ((gridCenters [rectA, rectB]).map fun c =>
          pointCount [rectA, rectB] c.1 c.2).foldr max 0)
      = some ((find_max_overlap_point [rectA, rectB]).x,
              (find_max_overlap_point [rectA, rectB]).y) ∧
    (find_max_overlap_point [rectA, rectB]).count
      = ((gridCenters [rectA, rectB]).map fun c =>
          pointCount [rectA, rectB] c.1 c.2).foldr max 0 :=
  spec_C3.2 [rectA, rectB] (by simp)
    (by
      intro r hr
      rcases List.mem_cons.mp hr with heq | hr'
      · rw [heq]; constructor <;> norm_num [rectA]
      · rcases List.mem_cons.mp hr' with heq | hr''
        · rw [heq]; constructor <;> norm_num [rectB]
        · cases hr'')

/-- Witness for C10 at the repository's test rectangles: the emitted region
`{x:2, y:1, width:2, height:2}` has positive dimensions. -/
theorem spec_C10_witness :
    (⟨(0, 1), ⟨2, 1, 2, 2⟩⟩ : OverlapRegion) ∈ get_overlap_regions [rectA, rectB] ∧
    (0 : ℚ) < (⟨(0, 1), ⟨2, 1, 2, 2⟩⟩ : OverlapRegion).region.width ∧
    (0 : ℚ) < (⟨(0, 1), ⟨2, 1, 2, 2⟩⟩ : OverlapRegion).region.height := by
  have hv : ∀ r ∈ [rectA, rectB], 0 < r.width ∧ 0 < r.height := by
    intro r hr
    rcases List.mem_cons.mp hr with heq | hr'
    · rw [heq]; constructor <;> norm_num [rectA]
    · rcases List.mem_cons.mp hr' with heq | hr''
      · rw [heq]; constructor <;> norm_num [rectB]
      · cases hr''
  have hmem : (⟨(0, 1), ⟨2, 1, 2, 2⟩⟩ : OverlapRegion)
      ∈ get_overlap_regions [rectA, rectB] := by
    have e0 : ([rectA, rectB] : List Rect).getD 0 default = rectA := rfl
    have e1 : ([rectA, rectB] : List Rect).getD 1 default = rectB := rfl
    have f0 : ([rectA, rectB] : List Rect)[0]?.getD default = rectA := rfl
    have f1 : ([rectA, rectB] : List Rect)[1]?.getD default = rectB := rfl
    norm_num [get_overlap_regions, get_overlap_region, rectangles_overlap,
      rectA, rectB, e0, e1, f0, f1, List.range_succ, List.range',
      List.filterMap_cons]
  exact ⟨hmem, spec_C10 [rectA, rectB] hv _ hmem⟩
